import Mathlib

/-!
Verification of the entities database core of `election-insights`
(`src/server/entitiesDB.js`) against its natural-language specification.

The development has two layers:

* a typed storage layer mirroring the mongoose schemas (`Article`,
  `Mention` for the `Entity` collection) together with the query and
  retention operations (`aggregateEntities`, `getArticleIdsForEntity`,
  `pruneOlderThan30d`, `pruneCharEntities`);
* a dynamic JavaScript-value layer (`JVal`) for the document adapter
  `_adaptFromAlchemyDoc` and the ingestion routine
  `uploadArticlesFromDocs`, where JavaScript property access, `&&`
  chains, string concatenation and thrown `TypeError`s matter.

Dates and the query window bounds are modelled as integers counting
milliseconds since the epoch, exactly the values compared by the
MongoDB pipeline after `new Date(millis)`.
-/

namespace EntitiesDB

/-- Record of the `Article` mongoose schema: `_id`, `title`, `date`
(milliseconds since epoch), `url`. -/
structure Article where
  _id : String
  title : String
  date : Int
  url : String
deriving DecidableEq, Repr

/-- Record of the `Entity` mongoose schema (an entity mention):
`_id`, `text`, `count`, `sentiment`, `date` (milliseconds), `article_id`. -/
structure Mention where
  _id : String
  text : String
  count : Int
  sentiment : Rat
  date : Int
  article_id : String
deriving DecidableEq, Repr

/-- JavaScript `x || d` for an optional numeric argument, as used by
`start = start || 0`, `end = end || 9999999999999`, `limit = limit || 100`:
`none` models an absent / `null` / `undefined` argument, and the number
`0` is falsy, so it is also replaced by the default. -/
def jsOr (v : Option Int) (d : Int) : Int :=
  match v with
  | none => d
  | some x => if x = 0 then d else x

/-- Far-future sentinel used by the source as the default `end` bound. -/
def farFuture : Int := 9999999999999

/-- Keys of a list with later duplicates removed (first occurrence kept).
Models the set of distinct group keys produced by a MongoDB `$group`
stage; the concrete order (first appearance) is one deterministic
refinement of the unspecified server order. -/
def dedupKeys : List String → List String
  | [] => []
  | k :: ks => k :: (dedupKeys ks).filter (fun x => x ≠ k)

/-- The `$match` stage of `aggregateEntities`:
`{ date: { $gte: new Date(start), $lt: new Date(end) } }`. -/
def dateMatch (s e : Int) (ms : List Mention) : List Mention :=
  ms.filter (fun m => decide (s ≤ m.date) && decide (m.date < e))

/-- Result row of the `aggregateEntities` pipeline:
`_id` is the lowercased text, `value` the `$sum` of `count`,
`sentiment` the `$avg` of `sentiment`. -/
structure AggGroup where
  _id : String
  value : Int
  sentiment : Rat
deriving DecidableEq, Repr

/-- ASCII lowercasing of a string, character by character (`Char.toLower`
lowercases `A`–`Z` only), modelling MongoDB's `$toLower`; written as an
explicit list map over the string's characters so that it evaluates. -/
def lowerStr (s : String) : String := String.mk (s.data.map Char.toLower)

/-- Members of the group keyed by lowercased text `k`. -/
def groupOf (ms : List Mention) (k : String) : List Mention :=
  ms.filter (fun m => lowerStr m.text == k)

/-- The `$group` stage of `aggregateEntities`:
`{ _id: {$toLower: '$text'}, value: {$sum: '$count'}, sentiment: {$avg: '$sentiment'} }`.
Declarative, as in the source: one row per distinct lowercased text, with
the sum of `count` and the arithmetic mean of `sentiment` over the group. -/
def groupEntities (ms : List Mention) : List AggGroup :=
  (dedupKeys (ms.map (fun m => lowerStr m.text))).map (fun k =>
    { _id := k
      value := ((groupOf ms k).map (fun m => m.count)).sum
      sentiment := ((groupOf ms k).map (fun m => m.sentiment)).sum / ((groupOf ms k).length : Rat) })

/-- Descending comparison on `value` used by the `$sort: { value: -1 }` stage. -/
def byValueDesc (a b : AggGroup) : Bool := decide (b.value ≤ a.value)

/-- Insertion step of the stable descending sort. -/
def insertDesc (g : AggGroup) : List AggGroup → List AggGroup
  | [] => [g]
  | h :: t => if byValueDesc g h then g :: h :: t else h :: insertDesc g t

/-- The `$sort: { value: -1 }` stage: a stable sort, descending by
`value` (insertion sort, so it evaluates by kernel reduction; the server
order among ties is unspecified and stability is one refinement). -/
def sortByValueDesc : List AggGroup → List AggGroup
  | [] => []
  | h :: t => insertDesc h (sortByValueDesc t)

/-- The `aggregateEntities` pipeline over the stored mentions:
default the arguments with `||`, `$match` on the date window, `$group`
by lowercased text with `$sum`/`$avg`, `$sort` by `value` descending,
`$limit`. -/
def aggregateEntities (store : List Mention) (start endT limit : Option Int) : List AggGroup :=
  let s := jsOr start 0
  let e := jsOr endT farFuture
  let l := jsOr limit 100
  ((sortByValueDesc (groupEntities (dateMatch s e store))).take l.toNat)

/-- Matching of one pattern character of `new RegExp('^' + entity + '$', 'i')`
against one text character: `.` matches any character, any other
character matches case-insensitively. -/
def patCharMatch (p c : Char) : Bool := p == '.' || p.toLower == c.toLower

/-- Full-string case-insensitive regex test modelling
`new RegExp('^' + entity + '$', 'i').test(text)` for the fragment of
patterns whose characters are literals or the `.` metacharacter (no
quantifiers, classes, groups, alternation or escapes): the anchors force
the whole text to be consumed, and with neither quantifiers nor groups
each pattern character consumes exactly one text character. All theorems
below use entity strings inside this fragment. -/
def regexFullMatchCI (pat text : String) : Bool :=
  pat.toList.length == text.toList.length &&
    (pat.toList.zip text.toList).all (fun pc => patCharMatch pc.1 pc.2)

/-- The `$match` stage of `getArticleIdsForEntity`:
`{ text: new RegExp('^' + entity + '$', 'i'), date: { $gte: .., $lt: .. } }`. -/
def entityMatch (entity : String) (s e : Int) (ms : List Mention) : List Mention :=
  ms.filter (fun m => regexFullMatchCI entity m.text && (decide (s ≤ m.date) && decide (m.date < e)))

/-- Result row of the `getArticleIdsForEntity` grouping:
`{ _id: '$text', value: { $push: '$article_id' } }`. -/
structure IdGroup where
  _id : String
  value : List String
deriving DecidableEq, Repr

/-- The `$group` stage of `getArticleIdsForEntity`: one row per distinct
exact (case-preserved) text, pushing the `article_id` of every member. -/
def groupArticleIds (ms : List Mention) : List IdGroup :=
  (dedupKeys (ms.map (fun m => m.text))).map (fun k =>
    { _id := k, value := (ms.filter (fun m => m.text == k)).map (fun m => m.article_id) })

/-- The body of `getArticleIdsForEntity`: default `start`/`end` with `||`,
`$match` on regex and window, `$group` pushing article ids, then the
source resolves `res[0].value`. When the grouping result is empty the
JavaScript expression `res[0].value` throws a `TypeError` (there is no
guard); the thrown error is modelled as `none`, a successful resolution
as `some ids`. -/
def getArticleIdsForEntity (store : List Mention) (entity : String)
    (start endT : Option Int) : Option (List String) :=
  let s := jsOr start 0
  let e := jsOr endT farFuture
  match groupArticleIds (entityMatch entity s e store) with
  | [] => none
  | g :: _ => some g.value

/-- Retention cutoff of `pruneOlderThan30d`:
`moment().startOf('day').subtract(30, 'day').unix()*1000`, with the
30 calendar days modelled as 30 × 86400000 ms. The start of the current
day is a parameter. -/
def pruneCutoff (startOfDayMs : Int) : Int := startOfDayMs - 30 * 86400000

/-- The `pruneOlderThan30d` sweep: `remove({ date: { $lt: cutoff } })` on
both the `Article` and the `Entity` collections; the pair holds the
records each collection retains. -/
def pruneOlderThan30d (startOfDayMs : Int) (articles : List Article)
    (mentions : List Mention) : List Article × List Mention :=
  (articles.filter (fun a => !decide (a.date < pruneCutoff startOfDayMs)),
   mentions.filter (fun m => !decide (m.date < pruneCutoff startOfDayMs)))

/-- The `pruneCharEntities` sweep:
`Entity.remove({$where: "this.text.length == 1"})` — the retained
mentions are those whose text length is not exactly 1. -/
def pruneCharEntities (ms : List Mention) : List Mention :=
  ms.filter (fun m => !(m.text.length == 1))

/-! ## Dynamic JavaScript values

The document adapter `_adaptFromAlchemyDoc` works on untyped JavaScript
objects, and its behaviour on differently-shaped documents (property
access on strings, `&&` chains, thrown `TypeError`s from property access
on `undefined` and from `.map` on non-arrays) is what the adapter claims
are about, so it is embedded over a dynamic value type. Numbers are
modelled as rationals (sentiment scores are floats); `NaN`-producing
arithmetic is mapped to `jsUndefined`. -/

/-- Dynamic JavaScript value. -/
inductive JVal where
  | jsUndefined : JVal
  | null : JVal
  | bool : Bool → JVal
  | num : Rat → JVal
  | str : String → JVal
  | arr : List JVal → JVal
  | obj : List (String × JVal) → JVal
deriving Repr

/-- JavaScript truthiness (`NaN` is not modelled; `num` is falsy iff 0). -/
def JVal.truthy : JVal → Bool
  | .jsUndefined => false
  | .null => false
  | .bool b => b
  | .num q => decide (q ≠ 0)
  | .str s => decide (s ≠ "")
  | .arr _ => true
  | .obj _ => true

/-- First binding of a key in a JavaScript object's field list. -/
def lookupField : List (String × JVal) → String → JVal
  | [], _ => .jsUndefined
  | (k, v) :: fs, key => if k == key then v else lookupField fs key

/-- JavaScript property access `v[key]`: throws a `TypeError` on
`undefined`/`null`, looks up the field on objects (`undefined` when
absent), exposes `length` on strings and arrays, and yields `undefined`
on other primitives. -/
def JVal.get : JVal → String → Except Unit JVal
  | .jsUndefined, _ => .error ()
  | .null, _ => .error ()
  | .obj fs, key => .ok (lookupField fs key)
  | .str s, key => .ok (if key == "length" then .num s.length else .jsUndefined)
  | .arr xs, key => .ok (if key == "length" then .num xs.length else .jsUndefined)
  | _, _ => .ok .jsUndefined

/-- JavaScript string conversion, exact on the primitives the adapter
concatenates (strings); the remaining coercions are nominal placeholders
never exercised by the theorems below. -/
def JVal.toJsString : JVal → String
  | .jsUndefined => "undefined"
  | .null => "null"
  | .bool b => if b then "true" else "false"
  | .num q => toString q
  | .str s => s
  | .arr _ => ""
  | .obj _ => "[object Object]"

/-- JavaScript `a + b` restricted to the cases the adapter can reach:
string concatenation when either operand is a string, numeric addition
when both are numbers, `jsUndefined` otherwise. -/
def jsAdd : JVal → JVal → JVal
  | .str a, b => .str (a ++ b.toJsString)
  | a, .str b => .str (a.toJsString ++ b)
  | .num a, .num b => .num (a + b)
  | _, _ => .jsUndefined

/-- JavaScript `x * 1000` as in `new Date(doc.timestamp * 1000)`:
numeric on numbers, `jsUndefined` (a `NaN` timestamp, an invalid date) otherwise. -/
def jsMul1000 : JVal → JVal
  | .num q => .num (q * 1000)
  | _ => .jsUndefined

/-- Whether a JavaScript value is a number strictly greater than 1
(`e.text.length > 1`; comparisons against `undefined` are false). -/
def jsGtOne : JVal → Bool
  | .num q => decide (1 < q)
  | _ => false

/-- Article primitive assembled by `_adaptFromAlchemyDoc` (field values
are the JavaScript values the source computes; `dateP` holds the
millisecond value passed to `new Date`). -/
structure ArticleP where
  _idP : JVal
  titleP : JVal
  dateP : JVal
  urlP : JVal
deriving Repr

/-- Entity-mention primitive assembled by `_adaptFromAlchemyDoc`. -/
structure MentionP where
  _idP : JVal
  article_idP : JVal
  dateP : JVal
  textP : JVal
  countP : JVal
  sentimentP : JVal
deriving Repr

/-- Output of a successful, non-empty adaptation. -/
structure AdaptOut where
  article : ArticleP
  entities : List MentionP
deriving Repr

/-- Body of the function mapped over `enrichedUrl.entities`:
`{ _id: e.text + doc.id, article_id: doc.id, date: new Date(doc.timestamp*1000),
text: e.text, count: e.count, sentiment: e.sentiment.score }`, with the
property accesses that can throw performed in source order. -/
def adaptEntity (doc e : JVal) : Except Unit MentionP := do
  let t ← e.get "text"
  let docId ← doc.get "id"
  let ts ← doc.get "timestamp"
  let c ← e.get "count"
  let sent ← e.get "sentiment"
  let score ← sent.get "score"
  pure { _idP := jsAdd t docId, article_idP := docId, dateP := jsMul1000 ts,
         textP := t, countP := c, sentimentP := score }

/-- The `.map` over the entities array (element by element, aborting at
the first thrown `TypeError`). -/
def mapEnts (doc : JVal) : List JVal → Except Unit (List MentionP)
  | [] => pure []
  | e :: es => do
      let mp ← adaptEntity doc e
      let mps ← mapEnts doc es
      pure (mp :: mps)

/-- The `.filter(function (e) { return e.text.length > 1; })` over the
mapped primitives: `e.text` is a plain object field here, and `.length`
on it throws when the text is `undefined`/`null`. -/
def filterEnts : List MentionP → Except Unit (List MentionP)
  | [] => pure []
  | mp :: mps => do
      let len ← mp.textP.get "length"
      let rest ← filterEnts mps
      pure (if jsGtOne len then mp :: rest else rest)

/-- The document adapter `_adaptFromAlchemyDoc`:
`var enrichedUrl = doc.source && doc.source.enriched && doc.source.enriched.url;`
followed, when `enrichedUrl` is truthy, by the article literal, the
entity map and filter, and the `if (entities.length)` guard. `Except`
models a thrown `TypeError`; `Option` models the produced-nothing
(`undefined`) outcome. -/
def adaptFromAlchemyDoc (doc : JVal) : Except Unit (Option AdaptOut) := do
  let s ← doc.get "source"
  let enrichedUrl ←
    if s.truthy then do
      let enr ← s.get "enriched"
      if enr.truthy then enr.get "url" else pure enr
    else pure s
  if enrichedUrl.truthy then
    let docId ← doc.get "id"
    let title ← enrichedUrl.get "title"
    let ts ← doc.get "timestamp"
    let url ← enrichedUrl.get "url"
    let article : ArticleP :=
      { _idP := docId, titleP := title, dateP := jsMul1000 ts, urlP := url }
    let entsV ← enrichedUrl.get "entities"
    let mapped ← match entsV with
      | .arr xs => mapEnts doc xs
      | _ => .error ()
    let entities ← filterEnts mapped
    if entities.length != 0 then
      pure (some { article := article, entities := entities })
    else
      pure none
  else
    pure none

/-- Equality test on JavaScript values, used to model the keyed
`findByIdAndUpdate` upserts (MongoDB `_id` equality). -/
def JVal.beq : JVal → JVal → Bool
  | .jsUndefined, .jsUndefined => true
  | .null, .null => true
  | .bool a, .bool b => a == b
  | .num a, .num b => a == b
  | .str a, .str b => a == b
  | .arr xs, .arr ys => beqList xs ys
  | .obj fs, .obj gs => beqFields fs gs
  | _, _ => false
where
  /-- Elementwise equality of array values. -/
  beqList : List JVal → List JVal → Bool
    | [], [] => true
    | x :: xs, y :: ys => JVal.beq x y && beqList xs ys
    | _, _ => false
  /-- Fieldwise equality of object field lists. -/
  beqFields : List (String × JVal) → List (String × JVal) → Bool
    | [], [] => true
    | (k, v) :: fs, (l, w) :: gs => k == l && JVal.beq v w && beqFields fs gs
    | _, _ => false

/-- Upsert of an article primitive, modelling
`Article.findByIdAndUpdate(articlePrimitive._id, articlePrimitive, {upsert: true})`:
replace every stored record with the same `_id`, or append when absent. -/
def upsertArticle (st : List ArticleP) (a : ArticleP) : List ArticleP :=
  if st.any (fun x => JVal.beq x._idP a._idP) then
    st.map (fun x => if JVal.beq x._idP a._idP then a else x)
  else
    st ++ [a]

/-- Upsert of a mention primitive, modelling
`Entity.findByIdAndUpdate(ep._id, ep, {upsert: true})`. -/
def upsertMention (st : List MentionP) (mp : MentionP) : List MentionP :=
  if st.any (fun x => JVal.beq x._idP mp._idP) then
    st.map (fun x => if JVal.beq x._idP mp._idP then mp else x)
  else
    st ++ [mp]

/-- The two persisted collections. -/
structure StoreP where
  articles : List ArticleP
  mentions : List MentionP

/-- Processing of one document inside `uploadArticlesFromDocs`'s
`forEach`: skip falsy documents, adapt, and when something was produced
upsert the article and then each entity primitive. A thrown `TypeError`
propagates, aborting the batch. -/
def uploadOne (st : StoreP) (doc : JVal) : Except Unit StoreP :=
  if doc.truthy then do
    let r ← adaptFromAlchemyDoc doc
    match r with
    | none => pure st
    | some out =>
        let arts := upsertArticle st.articles out.article
        let ments :=
          if out.entities.length != 0 then out.entities.foldl upsertMention st.mentions
          else st.mentions
        pure { articles := arts, mentions := ments }
  else
    pure st

/-- The ingestion routine `uploadArticlesFromDocs`, one upsert pass per
document in order. -/
def uploadArticlesFromDocs (docs : List JVal) (st : StoreP) : Except Unit StoreP :=
  match docs with
  | [] => pure st
  | d :: ds => do
      let st1 ← uploadOne st d
      uploadArticlesFromDocs ds st1

/-! ## Well-shaped enrichment documents

Two concrete document builders. `DocSpec.toDoc` builds a document in the
shape the source code actually dereferences (`source.enriched.url` is an
object holding `title`, `url` and `entities` — the AlchemyData News
layout). `DocSpec.toSpecDoc` builds a document in the shape §6 of the
specification describes (`title`, `url` and `entities` directly on
`source.enriched`, with `url` a string); it exists to compare the
specification's wording with the code. -/

/-- Parameters of a well-formed enrichment document: id, epoch-seconds
timestamp, title, url, and entities as (text, count, sentiment score). -/
structure DocSpec where
  id : String
  ts : Rat
  title : String
  url : String
  ents : List (String × Rat × Rat)

/-- Entity element `{ text, count, sentiment: { score } }`. -/
def mkEnt (e : String × Rat × Rat) : JVal :=
  .obj [("text", .str e.1), ("count", .num e.2.1), ("sentiment", .obj [("score", .num e.2.2)])]

/-- Document in the code's shape: `source.enriched.url` is the object
carrying `title`, `url`, `entities`. -/
def DocSpec.toDoc (d : DocSpec) : JVal :=
  .obj [("id", .str d.id), ("timestamp", .num d.ts),
        ("source", .obj [("enriched", .obj [("url",
          .obj [("title", .str d.title), ("url", .str d.url),
                ("entities", .arr (d.ents.map mkEnt))])])])]

/-- Modelled from the spec: document in the shape §6 describes,
`{ id, timestamp, source: { enriched: { title, url, entities } } }`
with `url` a plain string. -/
def DocSpec.toSpecDoc (d : DocSpec) : JVal :=
  .obj [("id", .str d.id), ("timestamp", .num d.ts),
        ("source", .obj [("enriched",
          .obj [("title", .str d.title), ("url", .str d.url),
                ("entities", .arr (d.ents.map mkEnt))])])]

/-- Document whose `source.enriched` is present but carries no `url`
field at all. -/
def docNoUrl (id : String) (ts : Rat) : JVal :=
  .obj [("id", .str id), ("timestamp", .num ts),
        ("source", .obj [("enriched", .obj [])])]

/-- Mention primitive the adapter produces for entity `e` of the
document `d` (in the code's shape). -/
def entMentionOf (d : DocSpec) (e : String × Rat × Rat) : MentionP :=
  { _idP := .str (e.1 ++ d.id), article_idP := .str d.id, dateP := .num (d.ts * 1000),
    textP := .str e.1, countP := .num e.2.1, sentimentP := .num e.2.2 }

/-- Article primitive the adapter produces for the document `d`. -/
def articleOf (d : DocSpec) : ArticleP :=
  { _idP := .str d.id, titleP := .str d.title, dateP := .num (d.ts * 1000), urlP := .str d.url }

/-! ## Supporting lemmas -/

theorem mem_insertDesc {x g : AggGroup} :
    ∀ {l : List AggGroup}, x ∈ insertDesc g l ↔ x = g ∨ x ∈ l
  | [] => by simp [insertDesc]
  | h :: t => by
      by_cases hc : byValueDesc g h
      · simp [insertDesc, hc]
      · simp only [insertDesc, hc, Bool.false_eq_true, if_false, List.mem_cons,
          @mem_insertDesc x g t]
        tauto

theorem mem_sortByValueDesc {x : AggGroup} : ∀ {l : List AggGroup}, x ∈ sortByValueDesc l ↔ x ∈ l
  | [] => Iff.rfl
  | h :: t => by
      simp [sortByValueDesc, mem_insertDesc, @mem_sortByValueDesc x t]

theorem pairwise_insertDesc {g : AggGroup} :
    ∀ {l : List AggGroup}, l.Pairwise (fun a b => b.value ≤ a.value) →
      (insertDesc g l).Pairwise (fun a b => b.value ≤ a.value)
  | [], _ => by simp [insertDesc]
  | h :: t, hp => by
      rcases List.pairwise_cons.mp hp with ⟨hh, ht⟩
      by_cases hc : byValueDesc g h
      · rw [insertDesc, if_pos hc]
        have hgh : h.value ≤ g.value := by simpa [byValueDesc] using hc
        refine List.pairwise_cons.mpr ⟨?_, hp⟩
        intro x hx
        rcases List.mem_cons.mp hx with rfl | hx'
        · exact hgh
        · exact le_trans (hh x hx') hgh
      · rw [insertDesc, if_neg hc]
        have hgh : g.value ≤ h.value := by
          simp only [byValueDesc, decide_eq_true_eq] at hc
          omega
        refine List.pairwise_cons.mpr ⟨?_, pairwise_insertDesc ht⟩
        intro x hx
        rcases mem_insertDesc.mp hx with rfl | hx'
        · exact hgh
        · exact hh x hx'

theorem pairwise_sortByValueDesc :
    ∀ l : List AggGroup, (sortByValueDesc l).Pairwise (fun a b => b.value ≤ a.value)
  | [] => List.Pairwise.nil
  | _ :: t => pairwise_insertDesc (pairwise_sortByValueDesc t)

theorem mem_dedupKeys {x : String} : ∀ {l : List String}, x ∈ dedupKeys l ↔ x ∈ l := by
  intro l
  induction l with
  | nil => simp [dedupKeys]
  | cons k ks ih =>
      simp only [dedupKeys, List.mem_cons, List.mem_filter, ih]
      constructor
      · rintro (rfl | ⟨h, _⟩)
        · exact Or.inl rfl
        · exact Or.inr h
      · rintro (rfl | h)
        · exact Or.inl rfl
        · by_cases hx : x = k
          · exact Or.inl hx
          · exact Or.inr ⟨h, by simpa using hx⟩

theorem adaptEntity_toDoc (d : DocSpec) (e : String × Rat × Rat) :
    adaptEntity d.toDoc (mkEnt e) = Except.ok (entMentionOf d e) := rfl

theorem mapEnts_toDoc (d : DocSpec) :
    ∀ es : List (String × Rat × Rat),
      mapEnts d.toDoc (es.map mkEnt) = Except.ok (es.map (entMentionOf d))
  | [] => rfl
  | e :: es => by
      have step : mapEnts d.toDoc ((e :: es).map mkEnt) =
          (mapEnts d.toDoc (es.map mkEnt)).bind
            (fun mps => Except.ok (entMentionOf d e :: mps)) := rfl
      rw [step, mapEnts_toDoc d es]
      rfl

theorem filterEnts_map (d : DocSpec) :
    ∀ es : List (String × Rat × Rat),
      filterEnts (es.map (entMentionOf d)) =
        Except.ok ((es.filter (fun e => decide (1 < e.1.length))).map (entMentionOf d))
  | [] => rfl
  | e :: es => by
      have step : filterEnts ((e :: es).map (entMentionOf d)) =
          (filterEnts (es.map (entMentionOf d))).bind
            (fun rest =>
              Except.ok (if jsGtOne (.num (e.1.length : Rat)) then entMentionOf d e :: rest
                         else rest)) := rfl
      rw [step, filterEnts_map d es]
      by_cases h1 : 1 < e.1.length
      · simp [Except.bind, jsGtOne, Nat.one_lt_cast, h1, List.filter_cons]
      · simp [Except.bind, jsGtOne, Nat.one_lt_cast, h1, List.filter_cons]

/-- Closed form of the adapter on a document with the code's shape:
entities with text length ≤ 1 are filtered away, an empty remainder
yields no output, and otherwise the article and the surviving mention
primitives are produced. -/
theorem adapt_toDoc (d : DocSpec) :
    adaptFromAlchemyDoc d.toDoc =
      Except.ok
        (if (d.ents.filter (fun e => decide (1 < e.1.length))).isEmpty then none
         else some { article := articleOf d
                     entities := (d.ents.filter (fun e => decide (1 < e.1.length))).map
                       (entMentionOf d) }) := by
  have step : adaptFromAlchemyDoc d.toDoc =
      (mapEnts d.toDoc (d.ents.map mkEnt)).bind (fun mapped =>
        (filterEnts mapped).bind (fun entities =>
          if entities.length != 0
            then Except.ok (some { article := articleOf d, entities := entities })
            else Except.ok none)) := rfl
  by_cases hk : d.ents.filter (fun e => decide (1 < e.1.length)) = []
  · simp [step, mapEnts_toDoc, filterEnts_map, Except.bind, hk]
  · simp [step, mapEnts_toDoc, filterEnts_map, Except.bind, hk]

theorem except_bind_ok {α β : Type} (a : α) (f : α → Except Unit β) :
    ((Except.ok a : Except Unit α) >>= f) = f a := rfl

theorem except_bind_error {α β : Type} (e : Unit) (f : α → Except Unit β) :
    ((Except.error e : Except Unit α) >>= f) = Except.error e := rfl

theorem except_pure {α : Type} (a : α) : (pure a : Except Unit α) = Except.ok a := rfl

theorem mem_upsertMention_self (st : List MentionP) (mp : MentionP) :
    mp ∈ upsertMention st mp := by
  unfold upsertMention
  by_cases h : st.any (fun x => JVal.beq x._idP mp._idP)
  · rw [if_pos h]
    rcases List.any_eq_true.mp h with ⟨x, hx, hbeq⟩
    exact List.mem_map.mpr ⟨x, hx, by simp [hbeq]⟩
  · rw [if_neg h]
    simp

theorem mem_of_mem_upsertMention {st : List MentionP} {mp x : MentionP}
    (h : x ∈ upsertMention st mp) : x ∈ st ∨ x = mp := by
  unfold upsertMention at h
  by_cases hc : st.any (fun y => JVal.beq y._idP mp._idP)
  · rw [if_pos hc] at h
    rcases List.mem_map.mp h with ⟨y, hy, hyx⟩
    by_cases hb : JVal.beq y._idP mp._idP
    · right; rw [← hyx]; simp [hb]
    · left; rw [← hyx]; simpa [hb] using hy
  · rw [if_neg hc] at h
    rcases List.mem_append.mp h with h' | h'
    · exact Or.inl h'
    · exact Or.inr (List.mem_singleton.mp h')

theorem mem_of_mem_upsertArticle {st : List ArticleP} {a x : ArticleP}
    (h : x ∈ upsertArticle st a) : x ∈ st ∨ x = a := by
  unfold upsertArticle at h
  by_cases hc : st.any (fun y => JVal.beq y._idP a._idP)
  · rw [if_pos hc] at h
    rcases List.mem_map.mp h with ⟨y, hy, hyx⟩
    by_cases hb : JVal.beq y._idP a._idP
    · right; rw [← hyx]; simp [hb]
    · left; rw [← hyx]; simpa [hb] using hy
  · rw [if_neg hc] at h
    rcases List.mem_append.mp h with h' | h'
    · exact Or.inl h'
    · exact Or.inr (List.mem_singleton.mp h')

theorem mem_of_mem_foldl_upsert {x : MentionP} :
    ∀ {ms : List MentionP} {st : List MentionP},
      x ∈ ms.foldl upsertMention st → x ∈ st ∨ x ∈ ms
  | [], _, h => Or.inl h
  | m :: ms, st, h => by
      rcases @mem_of_mem_foldl_upsert x ms (upsertMention st m) h with h' | h'
      · rcases mem_of_mem_upsertMention h' with h'' | h''
        · exact Or.inl h''
        · exact Or.inr (by simp [h''])
      · exact Or.inr (List.mem_cons_of_mem m h')

theorem exists_foldl_upsert (P : MentionP → Prop) :
    ∀ (ms : List MentionP) (st : List MentionP), ms ≠ [] → (∀ x ∈ ms, P x) →
      ∃ mp ∈ ms.foldl upsertMention st, P mp
  | [], _, hne, _ => absurd rfl hne
  | m :: ms, st, _, hP => by
      match ms with
      | [] =>
          exact ⟨m, mem_upsertMention_self st m, hP m (List.mem_singleton.mpr rfl)⟩
      | m' :: ms' =>
          have := exists_foldl_upsert P (m' :: ms') (upsertMention st m) (by simp)
            (fun x hx => hP x (List.mem_cons_of_mem m hx))
          simpa [List.foldl_cons] using this

theorem uploadOne_mentions {st st' : StoreP} {doc : JVal}
    (h : uploadOne st doc = Except.ok st') :
    ∀ mp ∈ st'.mentions, mp ∈ st.mentions ∨
      ∃ out, adaptFromAlchemyDoc doc = Except.ok (some out) ∧ mp ∈ out.entities := by
  unfold uploadOne at h
  by_cases ht : doc.truthy
  · rw [if_pos ht] at h
    cases ha : adaptFromAlchemyDoc doc with
    | error e =>
        rw [ha, except_bind_error] at h
        exact absurd h (by simp)
    | ok r =>
        rw [ha, except_bind_ok] at h
        cases r with
        | none =>
            rw [except_pure] at h
            cases h
            exact fun mp hmp => Or.inl hmp
        | some out =>
            simp only [except_pure] at h
            cases h
            intro mp hmp
            simp only at hmp
            by_cases he : (out.entities.length != 0) = true
            · rw [if_pos he] at hmp
              rcases mem_of_mem_foldl_upsert hmp with h' | h'
              · exact Or.inl h'
              · exact Or.inr ⟨out, rfl, h'⟩
            · rw [if_neg he] at hmp
              exact Or.inl hmp
  · rw [if_neg ht] at h
    cases h
    exact fun mp hmp => Or.inl hmp

theorem upload_mentions :
    ∀ {docs : List JVal} {st st' : StoreP},
      uploadArticlesFromDocs docs st = Except.ok st' →
      ∀ mp ∈ st'.mentions, mp ∈ st.mentions ∨
        ∃ doc ∈ docs, ∃ out, adaptFromAlchemyDoc doc = Except.ok (some out) ∧ mp ∈ out.entities
  | [], _, _, h => by
      cases h
      exact fun mp hmp => Or.inl hmp
  | d :: ds, st, st', h => by
      unfold uploadArticlesFromDocs at h
      cases h1 : uploadOne st d with
      | error e =>
          rw [h1, except_bind_error] at h
          exact absurd h (by simp)
      | ok st1 =>
          rw [h1, except_bind_ok] at h
          intro mp hmp
          rcases @upload_mentions ds st1 st' h mp hmp with h' | ⟨doc, hdoc, out, hout, hin⟩
          · rcases uploadOne_mentions h1 mp h' with h'' | ⟨out, hout, hin⟩
            · exact Or.inl h''
            · exact Or.inr ⟨d, by simp, out, hout, hin⟩
          · exact Or.inr ⟨doc, List.mem_cons_of_mem d hdoc, out, hout, hin⟩

/-- Effect of one keyed upsert on the number of stored records carrying
the upserted (string) id: one record afterwards when none was there,
and an unchanged count (all matching records replaced in place, none
added) otherwise. -/
theorem upsertMention_count (st : List MentionP) (mp : MentionP) (k : String)
    (hid : mp._idP = JVal.str k) :
    ((upsertMention st mp).filter (fun x => JVal.beq x._idP (JVal.str k))).length =
      max 1 ((st.filter (fun x => JVal.beq x._idP (JVal.str k))).length) := by
  have hself : JVal.beq (JVal.str k) (JVal.str k) = true := by simp [JVal.beq]
  unfold upsertMention
  rw [hid]
  by_cases hc : st.any (fun x => JVal.beq x._idP (JVal.str k))
  · rw [if_pos hc]
    have hcomp : ((fun x : MentionP => JVal.beq x._idP (JVal.str k)) ∘
        (fun x => if JVal.beq x._idP (JVal.str k) then mp else x)) =
        (fun x : MentionP => JVal.beq x._idP (JVal.str k)) := by
      funext x
      by_cases hb : JVal.beq x._idP (JVal.str k)
      · simp [Function.comp, hb, hid, hself]
      · simp [Function.comp, hb]
    rw [List.filter_map, hcomp, List.length_map]
    rcases List.any_eq_true.mp hc with ⟨x, hx, hbx⟩
    have hmem : x ∈ st.filter (fun x => JVal.beq x._idP (JVal.str k)) :=
      List.mem_filter.mpr ⟨hx, hbx⟩
    have hpos : 0 < (st.filter (fun x => JVal.beq x._idP (JVal.str k))).length :=
      List.length_pos.mpr (List.ne_nil_of_mem hmem)
    omega
  · rw [if_neg hc]
    have hnone : st.filter (fun x => JVal.beq x._idP (JVal.str k)) = [] := by
      rw [List.filter_eq_nil_iff]
      intro x hx hbx
      exact hc (List.any_eq_true.mpr ⟨x, hx, hbx⟩)
    rw [List.filter_append, hnone]
    simp [hid, hself]

/-- Canonical form of a successful non-empty adaptation of a document in
the code's shape, together with non-emptiness of the surviving filter. -/
theorem adapt_some_elim {d : DocSpec} {out : AdaptOut}
    (h : adaptFromAlchemyDoc d.toDoc = Except.ok (some out)) :
    out = { article := articleOf d
            entities := (d.ents.filter (fun e => decide (1 < e.1.length))).map (entMentionOf d) } ∧
    d.ents.filter (fun e => decide (1 < e.1.length)) ≠ [] := by
  rw [adapt_toDoc] at h
  by_cases hk : d.ents.filter (fun e => decide (1 < e.1.length)) = []
  · rw [if_pos (by simp [hk])] at h
    exact absurd h (by simp)
  · rw [if_neg (by simp [hk])] at h
    simp only [Except.ok.injEq, Option.some.injEq] at h
    exact ⟨h.symm, hk⟩

/-! ## Concrete instances used by witnesses -/

/-- Concrete well-formed document for the adapter witnesses. -/
def c2Doc : DocSpec := ⟨"doc1", 5, "T", "http://u", [("IBM", 3, 0)]⟩

/-- Adapter output for `c2Doc`. -/
def c2Out : AdaptOut := { article := articleOf c2Doc, entities := [entMentionOf c2Doc ("IBM", 3, 0)] }

/-- Article dated `now − 31 days` for the retention witness. -/
def c4ArtOld : Article := ⟨"a-old", "t", 5965200000, "u"⟩

/-- Article dated `now − 29 days` for the retention witness. -/
def c4ArtNew : Article := ⟨"a-new", "t", 6138000000, "u"⟩

/-- Mention dated `now − 31 days` for the retention witness. -/
def c4MenOld : Mention := ⟨"m-old", "xy", 1, 0, 5965200000, "a-old"⟩

/-- Mention dated `now − 29 days` for the retention witness. -/
def c4MenNew : Mention := ⟨"m-new", "xy", 1, 0, 6138000000, "a-new"⟩

/-- Mention "IBM" in article `a1` for the aggregation witness. -/
def c5mIBM : Mention := ⟨"IBMa1", "IBM", 1, 0, 5, "a1"⟩

/-- Mention "ibm" in article `a2` for the aggregation witness. -/
def c5mibm : Mention := ⟨"ibma2", "ibm", 1, 0, 5, "a2"⟩

/-- Mention dated at the window start for the window witness. -/
def c6mStart : Mention := ⟨"aba1", "ab", 1, 0, 0, "a1"⟩

/-- Mention dated at the window end for the window witness. -/
def c6mEnd : Mention := ⟨"aba1", "ab", 1, 0, 10, "a1"⟩

/-- Document mixing a degenerate (length-1) entity with a valid one,
for the filtering witness. -/
def c8d : DocSpec := ⟨"d8", 5, "T", "u", [("x", 1, 0), ("IBM", 3, 0)]⟩

/-- Adapter output for `c8d`: only the valid entity survives. -/
def c8Out : AdaptOut := { article := articleOf c8d, entities := [entMentionOf c8d ("IBM", 3, 0)] }

/-- Store obtained by ingesting `c8d` into an empty store. -/
def c8Store : StoreP := { articles := [articleOf c8d], mentions := [entMentionOf c8d ("IBM", 3, 0)] }

/-- Document for the mention-identity witness. -/
def c9d : DocSpec := ⟨"doc1", 5, "T", "u", [("IBM", 3, 0)]⟩

/-- Adapter output for `c9d`. -/
def c9Out : AdaptOut := { article := articleOf c9d, entities := [entMentionOf c9d ("IBM", 3, 0)] }

/-- The single mention primitive of `c9Out`. -/
def c9mp : MentionP := entMentionOf c9d ("IBM", 3, 0)

/-- Mention dated exactly at the far-future sentinel, for the defaults
witness. -/
def c10mFar : Mention := ⟨"zz", "zz", 1, 0, 9999999999999, "a1"⟩

/-! ## Claims -/

/-- Claim C1 (its refutation): `getArticleIdsForEntity` does not return
an empty set as a normal result when nothing matches — the source
resolves `res[0].value` without any guard, so an empty grouping result
throws a `TypeError` (modelled by `none`); and when matching mentions
exist under case-variant spellings, the unlowercased `$group` key splits
them into several groups of which only the first is returned, so the
result is not the distinct set of all matching `articleId`s either:
with mentions "IBM" in article `a1` and "ibm" in article `a2`, querying
"ibm" yields only `["a1"]`. -/
theorem c1_lookup_unguarded :
    getArticleIdsForEntity ([] : List Mention) "zebra" none none = none ∧
    getArticleIdsForEntity
      [⟨"IBMa1", "IBM", 1, 0, 5, "a1"⟩, ⟨"ibma2", "ibm", 1, 0, 5, "a2"⟩]
      "ibm" none none = some ["a1"] := by
  exact ⟨rfl, rfl⟩

/-- Claim C2 (counterexample): on a document shaped exactly as spec §6
(`source.enriched` holding `title`, `url : string`, `entities` directly,
with the enriched sub-object present and a valid entity), the adapter
does not produce the described Article: `doc.source.enriched.url` is the
string `"http://u"`, so `enrichedUrl.entities` is `undefined` and the
`.map` call throws a `TypeError` (`Except.error`). -/
theorem c2_spec_shape_counterexample :
    adaptFromAlchemyDoc (DocSpec.toSpecDoc ⟨"doc1", 5, "T", "http://u", [("IBM", 3, 0)]⟩) =
      Except.error () := rfl

/-- Claim C2 (amended): the adapter keys on `source.enriched.url`, an
object one level deeper than §6's sketch holding `title`, `url` and
`entities`. A document whose `enriched` sub-object carries no `url`
object produces no output; for a document in the code's shape the
produced Article has the document's id, the title and url of
`source.enriched.url`, and date `timestamp × 1000` (epoch-seconds to
milliseconds), and every produced Mention inherits that same date. -/
theorem c2_adapter_amended (d : DocSpec) (id : String) (ts : Rat) :
    adaptFromAlchemyDoc (docNoUrl id ts) = Except.ok none ∧
    (∀ out, adaptFromAlchemyDoc d.toDoc = Except.ok (some out) →
      out.article._idP = JVal.str d.id ∧ out.article.titleP = JVal.str d.title ∧
      out.article.urlP = JVal.str d.url ∧ out.article.dateP = JVal.num (d.ts * 1000) ∧
      ∀ mp ∈ out.entities, mp.dateP = JVal.num (d.ts * 1000)) := by
  constructor
  · rfl
  · intro out hout
    obtain ⟨rfl, -⟩ := adapt_some_elim hout
    refine ⟨rfl, rfl, rfl, rfl, ?_⟩
    intro mp hmp
    rcases List.mem_map.mp hmp with ⟨e, -, rfl⟩
    rfl

/-- Witness for the amended C2 at a concrete document. -/
theorem c2_adapter_amended_witness :
    adaptFromAlchemyDoc (docNoUrl "d0" 7) = Except.ok none ∧
    (c2Out.article._idP = JVal.str "doc1" ∧ c2Out.article.titleP = JVal.str "T" ∧
     c2Out.article.urlP = JVal.str "http://u" ∧ c2Out.article.dateP = JVal.num 5000 ∧
     ∀ mp ∈ c2Out.entities, mp.dateP = JVal.num 5000) := by
  refine ⟨(c2_adapter_amended c2Doc "d0" 7).1, ?_⟩
  have h := (c2_adapter_amended c2Doc "d0" 7).2 c2Out (by rfl)
  have h5 : (5 : Rat) * 1000 = 5000 := by norm_num
  simpa [c2Doc, h5] using h

/-- Claim C3 (counterexample): a stored mention whose text is empty
(length 0, hence ≤ 1, degenerate per the claim) survives
`pruneCharEntities`, which only removes text of length exactly 1. -/
theorem c3_empty_text_survives :
    pruneCharEntities [⟨"m0", "", 1, 0, 5, "a1"⟩] = [(⟨"m0", "", 1, 0, 5, "a1"⟩ : Mention)] ∧
    (⟨"m0", "", 1, 0, 5, "a1"⟩ : Mention).text.length ≤ 1 := by
  exact ⟨rfl, by decide⟩

/-- Claim C3 (amended): after `pruneCharEntities` completes, a mention
remains in storage exactly when it was stored before and its text length
is not exactly 1 — every length-1 mention is removed, but a length-0
mention is not targeted by this sweep. -/
theorem c3_prune_exactly_length_one (ms : List Mention) (m : Mention) :
    m ∈ pruneCharEntities ms ↔ m ∈ ms ∧ m.text.length ≠ 1 := by
  simp [pruneCharEntities, List.mem_filter]

/-- Claim C4: with the current day starting at `startOfDayMs` and the
current instant `startOfDayMs + frac` (`0 ≤ frac < 1 day`),
`pruneOlderThan30d` retains, in both collections, exactly the records
whose date is at or after `startOfDay − 30 days`; in particular a record
dated `now − 31 days` is removed and a record dated `now − 29 days` is
retained, in both collections. -/
theorem c4_retention_cutoff (startOfDayMs frac : Int)
    (h0 : 0 ≤ frac) (h1 : frac < 86400000)
    (articles : List Article) (mentions : List Mention) :
    (∀ a ∈ articles,
        (a ∈ (pruneOlderThan30d startOfDayMs articles mentions).1 ↔
          pruneCutoff startOfDayMs ≤ a.date)) ∧
    (∀ m ∈ mentions,
        (m ∈ (pruneOlderThan30d startOfDayMs articles mentions).2 ↔
          pruneCutoff startOfDayMs ≤ m.date)) ∧
    (∀ a ∈ articles, a.date = (startOfDayMs + frac) - 31 * 86400000 →
        a ∉ (pruneOlderThan30d startOfDayMs articles mentions).1) ∧
    (∀ a ∈ articles, a.date = (startOfDayMs + frac) - 29 * 86400000 →
        a ∈ (pruneOlderThan30d startOfDayMs articles mentions).1) ∧
    (∀ m ∈ mentions, m.date = (startOfDayMs + frac) - 31 * 86400000 →
        m ∉ (pruneOlderThan30d startOfDayMs articles mentions).2) ∧
    (∀ m ∈ mentions, m.date = (startOfDayMs + frac) - 29 * 86400000 →
        m ∈ (pruneOlderThan30d startOfDayMs articles mentions).2) := by
  refine ⟨?_, ?_, ?_, ?_, ?_, ?_⟩
  · intro a ha
    simp [pruneOlderThan30d, List.mem_filter, ha]
  · intro m hm
    simp [pruneOlderThan30d, List.mem_filter, hm]
  · intro a ha hd
    simp only [pruneOlderThan30d, List.mem_filter]
    rintro ⟨-, hkeep⟩
    simp [pruneCutoff, hd] at hkeep
    omega
  · intro a ha hd
    simp only [pruneOlderThan30d, List.mem_filter]
    refine ⟨ha, ?_⟩
    simp [pruneCutoff, hd]
    omega
  · intro m hm hd
    simp only [pruneOlderThan30d, List.mem_filter]
    rintro ⟨-, hkeep⟩
    simp [pruneCutoff, hd] at hkeep
    omega
  · intro m hm hd
    simp only [pruneOlderThan30d, List.mem_filter]
    refine ⟨hm, ?_⟩
    simp [pruneCutoff, hd]
    omega

/-- Witness for C4 at a concrete instant (day 100 of the epoch, one hour
in) with one old and one recent record in each collection. -/
theorem c4_retention_cutoff_witness :
    c4ArtOld ∉ (pruneOlderThan30d 8640000000 [c4ArtOld, c4ArtNew] [c4MenOld, c4MenNew]).1 ∧
    c4ArtNew ∈ (pruneOlderThan30d 8640000000 [c4ArtOld, c4ArtNew] [c4MenOld, c4MenNew]).1 ∧
    c4MenOld ∉ (pruneOlderThan30d 8640000000 [c4ArtOld, c4ArtNew] [c4MenOld, c4MenNew]).2 ∧
    c4MenNew ∈ (pruneOlderThan30d 8640000000 [c4ArtOld, c4ArtNew] [c4MenOld, c4MenNew]).2 := by
  have h := c4_retention_cutoff 8640000000 3600000 (by decide) (by decide)
    [c4ArtOld, c4ArtNew] [c4MenOld, c4MenNew]
  exact ⟨h.2.2.1 c4ArtOld (by decide) (by decide),
         h.2.2.2.1 c4ArtNew (by decide) (by decide),
         h.2.2.2.2.1 c4MenOld (by decide) (by decide),
         h.2.2.2.2.2 c4MenNew (by decide) (by decide)⟩

/-- Claim C5: every group returned by `aggregateEntities` carries, as
`value`, the sum of `count` over the in-window mentions whose lowercased
text is the group key and, as `sentiment`, the unweighted arithmetic
mean of their `sentiment` values; every in-window mention's lowercased
text is the key of some group of the grouping stage (so "IBM" and "ibm"
land in one group); the returned list is sorted descending by `value`;
and its length is at most the effective limit. -/
theorem c5_aggregation (store : List Mention) (start endT limit : Option Int) :
    (∀ g ∈ aggregateEntities store start endT limit,
        g.value = ((groupOf (dateMatch (jsOr start 0) (jsOr endT farFuture) store) g._id).map
            (fun m => m.count)).sum ∧
        g.sentiment =
          ((groupOf (dateMatch (jsOr start 0) (jsOr endT farFuture) store) g._id).map
            (fun m => m.sentiment)).sum /
          ((groupOf (dateMatch (jsOr start 0) (jsOr endT farFuture) store) g._id).length : Rat)) ∧
    (∀ m ∈ dateMatch (jsOr start 0) (jsOr endT farFuture) store,
        ∃ g ∈ groupEntities (dateMatch (jsOr start 0) (jsOr endT farFuture) store),
          g._id = lowerStr m.text) ∧
    (aggregateEntities store start endT limit).Pairwise (fun a b => b.value ≤ a.value) ∧
    (aggregateEntities store start endT limit).length ≤ (jsOr limit 100).toNat := by
  have hunfold : aggregateEntities store start endT limit =
      (sortByValueDesc (groupEntities (dateMatch (jsOr start 0) (jsOr endT farFuture) store))).take
        (jsOr limit 100).toNat := rfl
  refine ⟨?_, ?_, ?_, ?_⟩
  · intro g hg
    rw [hunfold] at hg
    have hg1 : g ∈ sortByValueDesc
        (groupEntities (dateMatch (jsOr start 0) (jsOr endT farFuture) store)) :=
      List.mem_of_mem_take hg
    have hg2 : g ∈ groupEntities (dateMatch (jsOr start 0) (jsOr endT farFuture) store) :=
      mem_sortByValueDesc.mp hg1
    rcases List.mem_map.mp hg2 with ⟨k, -, rfl⟩
    exact ⟨rfl, rfl⟩
  · intro m hm
    refine ⟨_, List.mem_map_of_mem _ (mem_dedupKeys.mpr (List.mem_map_of_mem _ hm)), rfl⟩
  · rw [hunfold]
    exact List.Pairwise.sublist (List.take_sublist _ _) (pairwise_sortByValueDesc _)
  · rw [hunfold, List.length_take]
    exact min_le_left _ _

/-- Witness for C5 on a concrete store whose mentions "IBM" (article
`a1`) and "ibm" (article `a2`) merge into the single group `"ibm"` with
summed count 2 and mean sentiment 0. -/
theorem c5_aggregation_witness :
    ((⟨"ibm", 2, 0⟩ : AggGroup).value =
      ((groupOf (dateMatch 0 farFuture [c5mIBM, c5mibm]) "ibm").map (fun m => m.count)).sum ∧
     (⟨"ibm", 2, 0⟩ : AggGroup).sentiment =
      ((groupOf (dateMatch 0 farFuture [c5mIBM, c5mibm]) "ibm").map (fun m => m.sentiment)).sum /
        ((groupOf (dateMatch 0 farFuture [c5mIBM, c5mibm]) "ibm").length : Rat)) ∧
    (∃ g ∈ groupEntities (dateMatch 0 farFuture [c5mIBM, c5mibm]), g._id = lowerStr c5mIBM.text) := by
  have h := c5_aggregation [c5mIBM, c5mibm] none none none
  have hmem : (⟨"ibm", 2, 0⟩ : AggGroup) ∈ aggregateEntities [c5mIBM, c5mibm] none none none := by
    have hz : ((0 : Rat) + (0 + 0)) / ((2 : Nat) : Rat) = 0 := by norm_num
    have h1 : lowerStr "IBM" = "ibm" := by decide
    have h2 : lowerStr "ibm" = "ibm" := by decide
    simp +decide [aggregateEntities, groupEntities, dateMatch, jsOr, farFuture, dedupKeys,
      groupOf, sortByValueDesc, insertDesc, byValueDesc, c5mIBM, c5mibm, h1, h2, hz]
  exact ⟨h.1 ⟨"ibm", 2, 0⟩ hmem, h.2.1 c5mIBM (by decide)⟩

/-- Claim C6: both `$match` stages compare the mention date with
`$gte start` and `$lt end`: under a non-degenerate window and for a
stored mention whose text passes the entity regex, a date equal to
`start` is matched (by the aggregation window and by the lookup window)
and a date equal to `end` is matched by neither. -/
theorem c6_half_open_window (store : List Mention) (entity : String) (s e : Int) (m : Mention)
    (hlt : s < e) (hm : m ∈ store) (hre : regexFullMatchCI entity m.text = true) :
    (m.date = s → m ∈ dateMatch s e store ∧ m ∈ entityMatch entity s e store) ∧
    (m.date = e → m ∉ dateMatch s e store ∧ m ∉ entityMatch entity s e store) := by
  constructor
  · intro hd
    constructor
    · simp only [dateMatch, List.mem_filter]
      refine ⟨hm, ?_⟩
      simp [hd]
      omega
    · simp only [entityMatch, List.mem_filter]
      refine ⟨hm, ?_⟩
      simp [hd, hre]
      omega
  · intro hd
    constructor
    · simp only [dateMatch, List.mem_filter]
      rintro ⟨-, hp⟩
      simp only [hd, Bool.and_eq_true, decide_eq_true_eq] at hp
      omega
    · simp only [entityMatch, List.mem_filter]
      rintro ⟨-, hp⟩
      simp only [hd, hre, Bool.and_eq_true, decide_eq_true_eq, true_and] at hp
      omega

/-- Witness for C6: a mention dated exactly at the window start is in
both match stages; one dated exactly at the window end is in neither. -/
theorem c6_half_open_window_witness :
    (c6mStart ∈ dateMatch 0 10 [c6mStart] ∧ c6mStart ∈ entityMatch "ab" 0 10 [c6mStart]) ∧
    (c6mEnd ∉ dateMatch 0 10 [c6mEnd] ∧ c6mEnd ∉ entityMatch "ab" 0 10 [c6mEnd]) := by
  constructor
  · exact (c6_half_open_window [c6mStart] "ab" 0 10 c6mStart (by decide) (by decide)
      (by decide)).1 rfl
  · exact (c6_half_open_window [c6mEnd] "ab" 0 10 c6mEnd (by decide) (by decide)
      (by decide)).2 rfl

/-- Claim C7 (its refutation): the entity text is spliced into the
regular expression unescaped, so lookup matching is not equality
ignoring case: the query "U.S" matches the stored mention text "UxS"
(the `.` metacharacter matches any character) and returns that
mention's article, although the two strings differ ignoring case. -/
theorem c7_regex_metachar_match :
    getArticleIdsForEntity [⟨"UxSa1", "UxS", 1, 0, 5, "a1"⟩] "U.S" none none = some ["a1"] ∧
    lowerStr "U.S" ≠ lowerStr "UxS" := by
  exact ⟨rfl, by decide⟩

/-- Claim C8: the adapter keeps only entities whose text length exceeds
1 and never returns an article with an empty entity list; a document
all of whose entities are degenerate produces no output at all; after
any batch ingestion of well-formed documents every stored mention either
predates the batch or has text length > 1; and an article newly added by
ingesting a document is accompanied in the store by a mention carrying
its article id (no orphan article). -/
theorem c8_degenerate_filtering :
    (∀ (d : DocSpec) (out : AdaptOut), adaptFromAlchemyDoc d.toDoc = Except.ok (some out) →
        (∀ mp ∈ out.entities, ∃ t, mp.textP = JVal.str t ∧ 1 < t.length) ∧
        out.entities ≠ []) ∧
    (∀ d : DocSpec, (∀ e ∈ d.ents, e.1.length ≤ 1) →
        adaptFromAlchemyDoc d.toDoc = Except.ok none) ∧
    (∀ (ds : List DocSpec) (st st' : StoreP),
        uploadArticlesFromDocs (ds.map DocSpec.toDoc) st = Except.ok st' →
        ∀ mp ∈ st'.mentions, mp ∈ st.mentions ∨ ∃ t, mp.textP = JVal.str t ∧ 1 < t.length) ∧
    (∀ (d : DocSpec) (st st' : StoreP),
        uploadArticlesFromDocs [d.toDoc] st = Except.ok st' →
        ∀ a ∈ st'.articles, a ∉ st.articles →
          ∃ mp ∈ st'.mentions, mp.article_idP = a._idP) := by
  refine ⟨?_, ?_, ?_, ?_⟩
  · intro d out hout
    obtain ⟨rfl, hk⟩ := adapt_some_elim hout
    constructor
    · intro mp hmp
      rcases List.mem_map.mp hmp with ⟨e, he, rfl⟩
      refine ⟨e.1, rfl, ?_⟩
      simpa using List.of_mem_filter he
    · simpa using hk
  · intro d hshort
    rw [adapt_toDoc]
    have hk : d.ents.filter (fun e => decide (1 < e.1.length)) = [] := by
      rw [List.filter_eq_nil_iff]
      intro e he
      simpa using Nat.not_lt.mpr (hshort e he)
    simp [hk]
  · intro ds st st' hup mp hmp
    rcases upload_mentions hup mp hmp with h | ⟨doc, hdoc, out, hout, hin⟩
    · exact Or.inl h
    · right
      rcases List.mem_map.mp hdoc with ⟨d, -, rfl⟩
      obtain ⟨rfl, -⟩ := adapt_some_elim hout
      rcases List.mem_map.mp hin with ⟨e, he, rfl⟩
      refine ⟨e.1, rfl, ?_⟩
      simpa using List.of_mem_filter he
  · intro d st st' hup a ha hnew
    unfold uploadArticlesFromDocs at hup
    cases h1 : uploadOne st d.toDoc with
    | error e =>
        rw [h1, except_bind_error] at hup
        exact absurd hup (by simp)
    | ok st1 =>
        rw [h1, except_bind_ok] at hup
        unfold uploadArticlesFromDocs at hup
        rw [except_pure] at hup
        cases hup
        unfold uploadOne at h1
        rw [if_pos (show JVal.truthy d.toDoc = true from rfl), adapt_toDoc, except_bind_ok] at h1
        by_cases hk : d.ents.filter (fun e => decide (1 < e.1.length)) = []
        · rw [if_pos (by simp [hk])] at h1
          simp only [except_pure, Except.ok.injEq] at h1
          rw [← h1] at ha
          exact absurd ha hnew
        · rw [if_neg (by simp [hk])] at h1
          simp only [except_pure, Except.ok.injEq] at h1
          rw [← h1] at ha ⊢
          simp only at ha ⊢
          have ha' : a = articleOf d := by
            rcases mem_of_mem_upsertArticle ha with h | h
            · exact absurd h hnew
            · exact h
          have hlen : (((d.ents.filter (fun e => decide (1 < e.1.length))).map
              (entMentionOf d)).length != 0) = true := by
            simp [hk]
          rw [if_pos hlen]
          have hex := exists_foldl_upsert (fun mp => mp.article_idP = JVal.str d.id)
            ((d.ents.filter (fun e => decide (1 < e.1.length))).map (entMentionOf d))
            st.mentions (by simpa using hk)
            (by
              intro x hx
              rcases List.mem_map.mp hx with ⟨e, -, rfl⟩
              rfl)
          rcases hex with ⟨mp, hmem, hmp⟩
          exact ⟨mp, hmem, by rw [hmp, ha']; rfl⟩

/-- Witness for C8 at concrete documents: a document mixing a
degenerate entity with a valid one yields output whose mentions all
have text longer than 1 character and a non-empty mention list, a
document with only a length-1 entity yields nothing, a batch upload of
the former into an empty store stores only long-text mentions, and the
newly stored article has a mention carrying its id. -/
theorem c8_degenerate_filtering_witness :
    ((∀ mp ∈ c8Out.entities, ∃ t, mp.textP = JVal.str t ∧ 1 < t.length) ∧
      c8Out.entities ≠ []) ∧
    adaptFromAlchemyDoc (DocSpec.toDoc ⟨"d1", 5, "T", "u", [("a", 1, 0)]⟩) = Except.ok none ∧
    (∀ mp ∈ c8Store.mentions, mp ∈ ([] : List MentionP) ∨
      ∃ t, mp.textP = JVal.str t ∧ 1 < t.length) ∧
    (∀ a ∈ c8Store.articles, a ∉ ([] : List ArticleP) →
      ∃ mp ∈ c8Store.mentions, mp.article_idP = a._idP) := by
  refine ⟨?_, ?_, ?_, ?_⟩
  · exact c8_degenerate_filtering.1 c8d c8Out (by rfl)
  · exact c8_degenerate_filtering.2.1 ⟨"d1", 5, "T", "u", [("a", 1, 0)]⟩ (by decide)
  · exact c8_degenerate_filtering.2.2.1 [c8d] ⟨[], []⟩ c8Store (by rfl)
  · exact c8_degenerate_filtering.2.2.2 c8d ⟨[], []⟩ c8Store (by rfl)

/-- Claim C9: every mention primitive produced by the adapter has id
`text ++ documentId` (text first), so mentions produced from two
documents sharing an id and an entity text coincide in id regardless of
which document is ingested first; and the keyed upsert leaves exactly
one stored record under the upserted id when at most one was there
before (`max 1 n` in general — an insert when the id was absent, an
in-place replacement otherwise, never a duplicate). -/
theorem c9_mention_identity :
    (∀ (d : DocSpec) (out : AdaptOut), adaptFromAlchemyDoc d.toDoc = Except.ok (some out) →
        ∀ mp ∈ out.entities, ∃ t, mp.textP = JVal.str t ∧ mp._idP = JVal.str (t ++ d.id)) ∧
    (∀ (d1 d2 : DocSpec) (out1 out2 : AdaptOut), d1.id = d2.id →
        adaptFromAlchemyDoc d1.toDoc = Except.ok (some out1) →
        adaptFromAlchemyDoc d2.toDoc = Except.ok (some out2) →
        ∀ mp1 ∈ out1.entities, ∀ mp2 ∈ out2.entities,
          mp1.textP = mp2.textP → mp1._idP = mp2._idP) ∧
    (∀ (st : List MentionP) (mp : MentionP) (k : String), mp._idP = JVal.str k →
        ((upsertMention st mp).filter (fun x => JVal.beq x._idP (JVal.str k))).length =
          max 1 ((st.filter (fun x => JVal.beq x._idP (JVal.str k))).length)) := by
  refine ⟨?_, ?_, fun st mp k hid => upsertMention_count st mp k hid⟩
  · intro d out hout
    obtain ⟨rfl, -⟩ := adapt_some_elim hout
    intro mp hmp
    rcases List.mem_map.mp hmp with ⟨e, -, rfl⟩
    exact ⟨e.1, rfl, rfl⟩
  · intro d1 d2 out1 out2 hid h1 h2 mp1 hmp1 mp2 hmp2 htext
    obtain ⟨rfl, -⟩ := adapt_some_elim h1
    obtain ⟨rfl, -⟩ := adapt_some_elim h2
    rcases List.mem_map.mp hmp1 with ⟨e1, -, rfl⟩
    rcases List.mem_map.mp hmp2 with ⟨e2, -, rfl⟩
    have he : e1.1 = e2.1 := by
      injection htext
    simp only [entMentionOf, he, hid]

/-- Witness for C9 at a concrete document and a concrete single-record
store. -/
theorem c9_mention_identity_witness :
    (∃ t, c9mp.textP = JVal.str t ∧ c9mp._idP = JVal.str (t ++ "doc1")) ∧
    ((upsertMention [c9mp] c9mp).filter (fun x => JVal.beq x._idP (JVal.str "IBMdoc1"))).length =
      max 1 (([c9mp].filter (fun x => JVal.beq x._idP (JVal.str "IBMdoc1"))).length) := by
  refine ⟨?_, ?_⟩
  · exact c9_mention_identity.1 c9d c9Out (by rfl) c9mp (List.mem_singleton.mpr rfl)
  · exact c9_mention_identity.2.2 [c9mp] c9mp "IBMdoc1" (by rfl)

/-- Claim C10: a falsy (`none` or `0`) `start`, `end` or `limit` is
replaced by its default: passing `0` for all three behaves like passing
nothing; limit `0` behaves like limit `100`, so it yields up to 100
groups rather than zero; with `end = 0` the effective window bound is
the sentinel `9999999999999` ms, excluding any mention dated at or after
it; and the same substitution applies to `start`/`end` of
`getArticleIdsForEntity`. -/
theorem c10_falsy_defaults (store : List Mention) (entity : String) (m : Mention) :
    aggregateEntities store (some 0) (some 0) (some 0) = aggregateEntities store none none none ∧
    aggregateEntities store none none (some 0) = aggregateEntities store none none (some 100) ∧
    (aggregateEntities store none none (some 0)).length ≤ 100 ∧
    (m ∈ store → farFuture ≤ m.date →
      m ∉ dateMatch (jsOr (some 0) 0) (jsOr (some 0) farFuture) store) ∧
    getArticleIdsForEntity store entity (some 0) (some 0) =
      getArticleIdsForEntity store entity none none := by
  refine ⟨rfl, rfl, ?_, ?_, rfl⟩
  · have hunfold : aggregateEntities store none none (some 0) =
        (sortByValueDesc (groupEntities (dateMatch 0 farFuture store))).take 100 := rfl
    rw [hunfold, List.length_take]
    exact min_le_left _ _
  · intro hm hdate
    have he : jsOr (some 0) farFuture = farFuture := rfl
    simp only [dateMatch, he, List.mem_filter]
    rintro ⟨-, hp⟩
    simp only [Bool.and_eq_true, decide_eq_true_eq] at hp
    exact absurd hp.2 (not_lt.mpr hdate)

/-- Witness for C10 with a store holding one mention dated exactly at
the far-future sentinel. -/
theorem c10_falsy_defaults_witness :
    aggregateEntities [c10mFar] (some 0) (some 0) (some 0) =
      aggregateEntities [c10mFar] none none none ∧
    c10mFar ∉ dateMatch (jsOr (some 0) 0) (jsOr (some 0) farFuture) [c10mFar] := by
  exact ⟨(c10_falsy_defaults [c10mFar] "x" c10mFar).1,
         (c10_falsy_defaults [c10mFar] "x" c10mFar).2.2.2.1 (by decide) (by decide)⟩

end EntitiesDB
